import Mathlib

/-!
Shallow embedding of `src/notebooks/dqn_agent.py` (a DQN agent with a replay
buffer, epsilon-greedy policy and soft target updates).

Modelling conventions:
* floating-point tensors are modelled by `ℚ` and `List ℚ` (a batch column is a
  `List ℚ`, a batch of states is a `List (List ℚ)`);
* the calls to the random number generator (`random.random()`,
  `random.choice`, `random.sample`) are modelled by explicit parameters: the
  drawn float `r`, the chosen index `pick`, the chosen index list `idx`;
* the estimator `QNetwork` lives in `model.py`, which is not part of the
  sources; it is modelled from the spec (see `QNetwork` below);
* the optimizer (`optim.Adam`: zero_grad / backward / step) is an external
  collaborator; the combined effect of one gradient step on the flattened
  online parameters is an opaque function `gradStep : List ℚ → List ℚ`.
-/

namespace DQN

/-- `BUFFER_SIZE = int(1e5)` (dqn_agent.py line 11). -/
def BUFFER_SIZE : ℕ := 100000

/-- `BATCH_SIZE = 64` (line 12). -/
def BATCH_SIZE : ℕ := 64

/-- `GAMMA = 0.99` (line 13). -/
def GAMMA : ℚ := 99 / 100

/-- `TAU = 1e-3` (line 14). -/
def TAU : ℚ := 1 / 1000

/-- `UPDATE_EVERY = 4` (line 16). -/
def UPDATE_EVERY : ℕ := 4

/-- The namedtuple `Experience(state, action, reward, next_state, done)`
(line 184).  `add` performs no validation, so `state`/`next_state` may have
any length and `action` may be any integer. -/
structure Experience where
  state : List ℚ
  action : ℤ
  reward : ℚ
  next_state : List ℚ
  done : Bool
deriving DecidableEq, Repr, Inhabited

/-- The last `cap` elements of a list: semantics of a Python
`deque(maxlen=cap)` after appending the elements of `l` in order. -/
def keepLast (cap : ℕ) (l : List Experience) : List Experience :=
  l.drop (l.length - cap)

/-- `ReplayBuffer.__init__` (lines 181-185): `self.memory = deque(maxlen=buffer_size)`,
ordered oldest first. -/
structure ReplayBuffer where
  action_size : ℕ
  buffer_size : ℕ
  batch_size : ℕ
  memory : List Experience
deriving DecidableEq, Repr

/-- `ReplayBuffer.add` (lines 187-204): builds the namedtuple and appends it;
a `deque(maxlen=buffer_size)` discards its leftmost (oldest) element when the
append would exceed the capacity. -/
def ReplayBuffer.add (rb : ReplayBuffer) (e : Experience) : ReplayBuffer :=
  { rb with memory := keepLast rb.buffer_size (rb.memory ++ [e]) }

/-- Fold of `ReplayBuffer.add` over a list of insertions. -/
def ReplayBuffer.addAll (rb : ReplayBuffer) (es : List Experience) : ReplayBuffer :=
  es.foldl ReplayBuffer.add rb

/-- The five parallel arrays returned by `ReplayBuffer.sample` (lines 224-230);
`dones` is the `astype(np.uint8)`-then-`float()` image of the stored booleans. -/
structure SampleBatch where
  states : List (List ℚ)
  actions : List ℤ
  rewards : List ℚ
  next_states : List (List ℚ)
  dones : List ℚ
deriving DecidableEq, Repr

/-- `ReplayBuffer.sample` (lines 206-230).  `random.sample(self.memory, k)`
raises `ValueError` when `k` exceeds the population size (modelled by `none`);
otherwise it returns `k` distinct elements, modelled by the index list `idx`
(the RNG guarantees `idx` is duplicate-free, of length `batch_size`, in
bounds — hypotheses of the theorems below).  The method never writes to
`self.memory`: the returned buffer is the receiver, unchanged. -/
def ReplayBuffer.sample (rb : ReplayBuffer) (idx : List ℕ) :
    Option (SampleBatch × ReplayBuffer) :=
  if rb.batch_size ≤ rb.memory.length then
    some
      ({ states := (idx.map (fun i => rb.memory.getD i default)).map (·.state)
         actions := (idx.map (fun i => rb.memory.getD i default)).map (·.action)
         rewards := (idx.map (fun i => rb.memory.getD i default)).map (·.reward)
         next_states := (idx.map (fun i => rb.memory.getD i default)).map (·.next_state)
         dones := (idx.map (fun i => rb.memory.getD i default)).map
           (fun e => if e.done then (1 : ℚ) else 0) }, rb)
  else none

/-- `len(ReplayBuffer)` (lines 232-245). -/
def ReplayBuffer.size (rb : ReplayBuffer) : ℕ := rb.memory.length

/-- The two module modes toggled by `.train()` / `.eval()`. -/
inductive NetMode where
  | train : NetMode
  | evalM : NetMode
deriving DecidableEq, Repr

/-- Modelled from the spec: the estimator `QNetwork` is defined in `model.py`,
which is absent from the sources.  Per spec §6 it is "a callable/constructible
component taking (state_size, action_size, seed) and exposing: forward
evaluation (batched state tensor → batched action-value tensor), an
accessible/iterable parameter collection (for the soft update), and mode
toggles for inference vs. training behavior"; per spec §7 a shape-mismatched
input to a numeric operation raises (modelled by `none`).  `params` is the
flattened parameter sequence; `forwardQ` takes the current mode (training-only
stochastic behavior may depend on it) and one state row. -/
structure QNetwork where
  action_size : ℕ
  params : List ℚ
  mode : NetMode
  forwardQ : NetMode → List ℚ → Option (List ℚ)
  forward_len : ∀ m s q, forwardQ m s = some q → q.length = action_size

/-- `torch.max(·, 1)[0]` / the maximum of one row (value part of line 122). -/
def rowMax : List ℚ → ℚ
  | [] => 0
  | x :: xs => xs.foldl max x

/-- `np.argmax` (line 100), modelled from numpy's documented behavior: the
index of the first occurrence of the maximum value. -/
def argmaxIdx (l : List ℚ) : ℕ :=
  l.findIdx (fun x => decide (rowMax l ≤ x))

/-- `Q_targets_next = self.qnetwork_target(next_states).detach().max(1)[0]`
(line 122), given the target network's output rows on the next states. -/
def Q_targets_next (rows : List (List ℚ)) : List ℚ :=
  rows.map rowMax

/-- `Q_targets = rewards + (gamma * Q_targets_next * (1 - dones))` (line 126),
elementwise over the batch columns. -/
def Q_targets (gamma : ℚ) (rewards qnext dones : List ℚ) : List ℚ :=
  List.zipWith (fun r x => r + x) rewards
    (List.zipWith (fun q d => gamma * q * (1 - d)) qnext dones)

/-- `Agent.__init__` state (lines 23-49): sizes, the two networks, the
optimizer state bound to the online network, the replay memory and `t_step`. -/
structure Agent where
  state_size : ℕ
  action_size : ℕ
  qnetwork_local : QNetwork
  qnetwork_target : QNetwork
  optimState : List ℚ
  memory : ReplayBuffer
  t_step : ℕ

/-- `Agent.soft_update(local_model, target_model, tau)` (lines 144-160):
`for target_param, local_param in zip(target.parameters(), local.parameters()):
   target_param.data.copy_(tau*local_param.data + (1.0-tau)*target_param.data)`.
Returns the updated target parameter sequence. -/
def soft_update (localParams targetParams : List ℚ) (tau : ℚ) : List ℚ :=
  (targetParams.zip localParams).map (fun p => tau * p.2 + (1 - tau) * p.1)

/-- `Agent.learn` (lines 106-142), state effect: one optimizer step on the
online parameters (the loss/backward pipeline of lines 122-138 feeds the
opaque `gradStep`; the `Q_targets` computation itself is the definition
above), then `soft_update(qnetwork_local, qnetwork_target, TAU)` on the
target parameters — immediately after the gradient step, so the soft update
reads the post-step online parameters.  `gamma` does not touch agent state. -/
def Agent.learn (ag : Agent) (gradStep : List ℚ → List ℚ) (gamma : ℚ) : Agent :=
  let newLocal := { ag.qnetwork_local with params := gradStep ag.qnetwork_local.params }
  let newTarget := { ag.qnetwork_target with
    params := soft_update newLocal.params ag.qnetwork_target.params TAU }
  { ag with qnetwork_local := newLocal, qnetwork_target := newTarget }

/-- `Agent.step` (lines 51-77): add the experience to memory, increment
`t_step` modulo `UPDATE_EVERY`, and when the incremented counter is `0` and
`len(self.memory) > BATCH_SIZE` (strict), sample and learn.  The boolean
records whether the learning update was invoked on this call. -/
def Agent.step (ag : Agent) (state : List ℚ) (action : ℤ) (reward : ℚ)
    (next_state : List ℚ) (d : Bool) (gradStep : List ℚ → List ℚ) : Agent × Bool :=
  let mem' := ag.memory.add
    { state := state, action := action, reward := reward,
      next_state := next_state, done := d }
  let t' := (ag.t_step + 1) % UPDATE_EVERY
  let ag' := { ag with memory := mem', t_step := t' }
  if t' = 0 ∧ BATCH_SIZE < mem'.memory.length then
    (ag'.learn gradStep GAMMA, true)
  else
    (ag', false)

/-- `Agent.act` (lines 79-104): set the online network to inference mode,
evaluate it on the state, set it back to training mode, then return the
argmax of the action values when `random.random() > eps` and otherwise the
uniformly chosen index `pick` (`random.choice(np.arange(action_size))`).
When the forward evaluation raises, the exception propagates before
`self.qnetwork_local.train()` runs, so the returned agent still has the
online network in inference mode. -/
def Agent.act (ag : Agent) (state : List ℚ) (r : ℚ) (pick : ℕ) (eps : ℚ) :
    Option ℕ × Agent :=
  let netEval := { ag.qnetwork_local with mode := NetMode.evalM }
  let agEval := { ag with qnetwork_local := netEval }
  match netEval.forwardQ netEval.mode state with
  | none => (none, agEval)
  | some action_values =>
    let agTrain := { agEval with
      qnetwork_local := { netEval with mode := NetMode.train } }
    if r > eps then (some (argmaxIdx action_values), agTrain)
    else (some pick, agTrain)

/-- Iterated `Agent.step` over a list of transitions, recording for each call
whether it invoked the learning update. -/
def Agent.runSteps (g : List ℚ → List ℚ) : Agent → List Experience → List Bool
  | _, [] => []
  | ag, e :: es =>
    (ag.step e.state e.action e.reward e.next_state e.done g).2
      :: Agent.runSteps g (ag.step e.state e.action e.reward e.next_state e.done g).1 es

/-! ## Helper lemmas -/

theorem keepLast_append_keepLast (cap : ℕ) (l ys : List Experience) :
    keepLast cap (keepLast cap l ++ ys) = keepLast cap (l ++ ys) := by
  unfold keepLast
  rw [← List.drop_append_of_le_length (Nat.sub_le _ _), List.drop_drop]
  congr 1
  simp only [List.length_drop, List.length_append]
  omega

theorem add_buffer_size (rb : ReplayBuffer) (e : Experience) :
    (rb.add e).buffer_size = rb.buffer_size := rfl

theorem add_memory_length (rb : ReplayBuffer) (e : Experience) :
    (rb.add e).memory.length = min (rb.memory.length + 1) rb.buffer_size := by
  simp only [ReplayBuffer.add, keepLast, List.length_drop, List.length_append,
    List.length_cons, List.length_nil]
  omega

theorem addAll_memory (es : List Experience) : ∀ (rb : ReplayBuffer),
    rb.memory.length ≤ rb.buffer_size →
    (rb.addAll es).memory = keepLast rb.buffer_size (rb.memory ++ es) := by
  induction es with
  | nil =>
    intro rb h
    simp [ReplayBuffer.addAll, keepLast, Nat.sub_eq_zero_of_le h]
  | cons e es ih =>
    intro rb h
    have hadd : (rb.add e).memory.length ≤ (rb.add e).buffer_size := by
      rw [add_memory_length, add_buffer_size]; omega
    calc (rb.addAll (e :: es)).memory
        = ((rb.add e).addAll es).memory := rfl
      _ = keepLast rb.buffer_size ((keepLast rb.buffer_size (rb.memory ++ [e])) ++ es) := by
          rw [ih _ hadd, add_buffer_size]; rfl
      _ = keepLast rb.buffer_size ((rb.memory ++ [e]) ++ es) :=
          keepLast_append_keepLast _ _ _
      _ = keepLast rb.buffer_size (rb.memory ++ e :: es) := by
          rw [List.append_assoc]; rfl

theorem step_fst_t_step (ag : Agent) (s : List ℚ) (a : ℤ) (r : ℚ) (ns : List ℚ)
    (d : Bool) (g : List ℚ → List ℚ) :
    (ag.step s a r ns d g).1.t_step = (ag.t_step + 1) % UPDATE_EVERY := by
  unfold Agent.step
  dsimp only
  split <;> rfl

theorem step_fst_memory (ag : Agent) (s : List ℚ) (a : ℤ) (r : ℚ) (ns : List ℚ)
    (d : Bool) (g : List ℚ → List ℚ) :
    (ag.step s a r ns d g).1.memory
      = ag.memory.add
          { state := s, action := a, reward := r, next_state := ns, done := d } := by
  unfold Agent.step
  dsimp only
  split <;> rfl

theorem step_snd_iff (ag : Agent) (s : List ℚ) (a : ℤ) (r : ℚ) (ns : List ℚ)
    (d : Bool) (g : List ℚ → List ℚ) :
    (ag.step s a r ns d g).2 = true
      ↔ ((ag.t_step + 1) % UPDATE_EVERY = 0
          ∧ BATCH_SIZE
              < (ag.memory.add
                  { state := s, action := a, reward := r, next_state := ns,
                    done := d }).memory.length) := by
  unfold Agent.step
  dsimp only
  split <;> simp_all

theorem step_fst_qnetwork_target (ag : Agent) (s : List ℚ) (a : ℤ) (r : ℚ)
    (ns : List ℚ) (d : Bool) (g : List ℚ → List ℚ) :
    (ag.step s a r ns d g).1.qnetwork_target
      = if (ag.t_step + 1) % UPDATE_EVERY = 0
            ∧ BATCH_SIZE
                < (ag.memory.add
                    { state := s, action := a, reward := r, next_state := ns,
                      done := d }).memory.length
        then { ag.qnetwork_target with
                params := soft_update (g ag.qnetwork_local.params)
                  ag.qnetwork_target.params TAU }
        else ag.qnetwork_target := by
  unfold Agent.step Agent.learn
  dsimp only
  split <;> rfl

theorem runSteps_trigger (g : List ℚ → List ℚ) (es : List Experience) :
    ∀ (ag : Agent) (k : ℕ), k < es.length →
    ((Agent.runSteps g ag es).getD k false = true
      ↔ ((ag.t_step + k + 1) % UPDATE_EVERY = 0
          ∧ BATCH_SIZE
              < min (ag.memory.memory.length + (k + 1)) ag.memory.buffer_size)) := by
  induction es with
  | nil => intro ag k hk; simp at hk
  | cons e es ih =>
    intro ag k hk
    cases k with
    | zero =>
      simp only [Agent.runSteps, List.getD_cons_zero]
      rw [step_snd_iff, add_memory_length]
    | succ k =>
      simp only [Agent.runSteps, List.getD_cons_succ]
      rw [ih _ k (by simpa using hk), step_fst_t_step, step_fst_memory,
        add_memory_length, add_buffer_size]
      simp only [UPDATE_EVERY]
      constructor <;> intro h <;> refine ⟨?_, ?_⟩ <;> omega

theorem foldl_max_mem (xs : List ℚ) : ∀ (a : ℚ), xs.foldl max a ∈ a :: xs := by
  induction xs with
  | nil => intro a; simp
  | cons x xs ih =>
    intro a
    have h := ih (max a x)
    rw [List.mem_cons] at h
    simp only [List.foldl_cons, List.mem_cons]
    rcases h with h | h
    · rcases max_choice a x with hm | hm
      · exact Or.inl (by rw [h]; exact hm)
      · exact Or.inr (Or.inl (by rw [h]; exact hm))
    · exact Or.inr (Or.inr h)

theorem le_foldl_max_init (xs : List ℚ) : ∀ (a : ℚ), a ≤ xs.foldl max a := by
  induction xs with
  | nil => intro a; simp
  | cons x xs ih => intro a; exact le_trans (le_max_left a x) (ih (max a x))

theorem le_foldl_max_of_mem (xs : List ℚ) :
    ∀ (a y : ℚ), y ∈ xs → y ≤ xs.foldl max a := by
  induction xs with
  | nil => intro a y hy; simp at hy
  | cons x xs ih =>
    intro a y hy
    rw [List.mem_cons] at hy
    rcases hy with rfl | hy
    · exact le_trans (le_max_right a y) (le_foldl_max_init xs (max a y))
    · exact ih (max a x) y hy

theorem rowMax_mem (l : List ℚ) (h : l ≠ []) : rowMax l ∈ l := by
  match l with
  | x :: xs => exact foldl_max_mem xs x

theorem le_rowMax (l : List ℚ) (y : ℚ) (hy : y ∈ l) : y ≤ rowMax l := by
  match l with
  | x :: xs =>
    rw [List.mem_cons] at hy
    rcases hy with rfl | hy
    · exact le_foldl_max_init xs y
    · exact le_foldl_max_of_mem xs x y hy

theorem argmaxIdx_lt_length (l : List ℚ) (h : l ≠ []) : argmaxIdx l < l.length :=
  List.findIdx_lt_length_of_exists ⟨rowMax l, rowMax_mem l h, by simp⟩

theorem getD_argmaxIdx (l : List ℚ) : l.getD (argmaxIdx l) 0 = rowMax l := by
  by_cases h : l = []
  · subst h; rfl
  · have hlt := argmaxIdx_lt_length l h
    rw [List.getD_eq_getElem _ _ hlt]
    have h1 : decide (rowMax l ≤ l[argmaxIdx l]) = true :=
      @List.findIdx_getElem ℚ (fun x => decide (rowMax l ≤ x)) l hlt
    exact le_antisymm (le_rowMax l _ (List.getElem_mem hlt)) (of_decide_eq_true h1)

theorem take_argmaxIdx_lt (l : List ℚ) :
    (l.take (argmaxIdx l)).all (fun y => decide (y < rowMax l)) = true := by
  rw [List.all_eq_true]
  intro y hy
  obtain ⟨j, hj, hjy⟩ := List.getElem_of_mem hy
  rw [List.length_take] at hj
  have hjarg : j < argmaxIdx l := lt_of_lt_of_le hj (min_le_left _ _)
  have hjl : j < l.length := lt_of_lt_of_le hj (min_le_right _ _)
  rw [List.getElem_take] at hjy
  have hnot := @List.not_of_lt_findIdx ℚ (fun x => decide (rowMax l ≤ x)) l j hjarg
  simp only [decide_eq_false_iff_not, not_le] at hnot
  subst hjy
  simpa using hnot

/-- Evaluation of `Agent.act` when the forward pass succeeds: the result is
the argmax of the eval-mode output when `r > eps`, the uniformly drawn index
otherwise, and the returned agent is the original one with the online network
set back to training mode. -/
theorem act_eval (ag : Agent) (state : List ℚ) (r : ℚ) (pick : ℕ) (eps : ℚ)
    (av : List ℚ)
    (hfw : ag.qnetwork_local.forwardQ NetMode.evalM state = some av) :
    ag.act state r pick eps
      = (some (if r > eps then argmaxIdx av else pick),
         { ag with qnetwork_local :=
            { ag.qnetwork_local with mode := NetMode.train } }) := by
  unfold Agent.act
  dsimp only
  rw [hfw]
  by_cases h : r > eps <;> simp [h]

/-- Evaluation of `Agent.act` when the forward pass raises: the exception
propagates (`none`) and the returned agent still has the online network in
inference mode, since `self.qnetwork_local.train()` is never reached. -/
theorem act_eval_none (ag : Agent) (state : List ℚ) (r : ℚ) (pick : ℕ)
    (eps : ℚ)
    (hfw : ag.qnetwork_local.forwardQ NetMode.evalM state = none) :
    ag.act state r pick eps
      = (none,
         { ag with qnetwork_local :=
            { ag.qnetwork_local with mode := NetMode.evalM } }) := by
  unfold Agent.act
  dsimp only
  rw [hfw]

theorem soft_update_getD (lp tp : List ℚ) (tau : ℚ) (i : ℕ)
    (h1 : i < tp.length) (h2 : i < lp.length) :
    (soft_update lp tp tau).getD i 0 = tau * lp.getD i 0 + (1 - tau) * tp.getD i 0 := by
  rw [soft_update, List.getD_eq_getElem _ _ (by simp [List.length_zip]; omega),
    List.getD_eq_getElem _ _ h2, List.getD_eq_getElem _ _ h1]
  simp [List.getElem_zip]

/-! ## Claims -/

/-- C1: in the learning update, for every batch element `i` the Bellman target
equals `Q_target[i] = rewards[i] + gamma * max_a target(next_states[i])[a] *
(1 - dones[i])`; for every element with `done = 1`, `Q_target[i]` equals
`rewards[i]` exactly, independent of `gamma` and of the target estimator's
output rows. -/
theorem learn_bellman_target (gamma : ℚ) (rewards dones : List ℚ)
    (rows : List (List ℚ)) (i : ℕ) (hi : i < rewards.length)
    (hrows : rows.length = rewards.length) (hd : dones.length = rewards.length) :
    (Q_targets gamma rewards (Q_targets_next rows) dones).getD i 0
        = rewards.getD i 0 + gamma * rowMax (rows.getD i []) * (1 - dones.getD i 0)
    ∧ (dones.getD i 0 = 1 →
        (Q_targets gamma rewards (Q_targets_next rows) dones).getD i 0
          = rewards.getD i 0) := by
  have hlen : (Q_targets gamma rewards (Q_targets_next rows) dones).length
      = rewards.length := by
    simp [Q_targets, Q_targets_next]
    omega
  have h1 : (Q_targets gamma rewards (Q_targets_next rows) dones).getD i 0
      = rewards.getD i 0 + gamma * rowMax (rows.getD i []) * (1 - dones.getD i 0) := by
    rw [List.getD_eq_getElem _ _ (by omega : i < _), List.getD_eq_getElem _ _ hi,
      List.getD_eq_getElem _ _ (by omega : i < rows.length),
      List.getD_eq_getElem _ _ (by omega : i < dones.length)]
    simp [Q_targets, Q_targets_next, List.getElem_zipWith]
  refine ⟨h1, fun hdone => ?_⟩
  rw [h1, hdone]
  ring

/-- Witness for C1 at a concrete one-element batch with `done = 1`. -/
theorem learn_bellman_target_witness :
    (Q_targets GAMMA [(2 : ℚ)] (Q_targets_next [[(3 : ℚ), 4]]) [(1 : ℚ)]).getD 0 0
        = ([(2 : ℚ)]).getD 0 0
          + GAMMA * rowMax ([[(3 : ℚ), 4]].getD 0 []) * (1 - ([(1 : ℚ)]).getD 0 0)
    ∧ (([(1 : ℚ)]).getD 0 0 = 1 →
        (Q_targets GAMMA [(2 : ℚ)] (Q_targets_next [[(3 : ℚ), 4]]) [(1 : ℚ)]).getD 0 0
          = ([(2 : ℚ)]).getD 0 0) :=
  learn_bellman_target GAMMA [2] [1] [[3, 4]] 0 (by decide) (by decide) (by decide)

/-- C2: starting from a freshly constructed (empty) Replay Store of capacity
`C = buffer_size`, after any sequence of insertions the size is at most `C`,
the contents are exactly the most recent `C` insertions in insertion order
(oldest evicted first), and after `N ≥ C` insertions the size is exactly `C`. -/
theorem replay_capacity_fifo (rb : ReplayBuffer) (es : List Experience)
    (h0 : rb.memory = []) :
    (rb.addAll es).size ≤ rb.buffer_size
    ∧ (rb.addAll es).memory = es.drop (es.length - rb.buffer_size)
    ∧ (rb.buffer_size ≤ es.length → (rb.addAll es).size = rb.buffer_size) := by
  have h := addAll_memory es rb (by rw [h0]; simp)
  rw [h0, List.nil_append] at h
  unfold keepLast at h
  refine ⟨?_, h, fun hN => ?_⟩
  · rw [ReplayBuffer.size, h, List.length_drop]; omega
  · rw [ReplayBuffer.size, h, List.length_drop]; omega

/-- A concrete experience used in witnesses: state `[n]`, action `n`,
reward `n`, empty next state, not terminal. -/
def expW (n : ℕ) : Experience :=
  { state := [(n : ℚ)], action := (n : ℤ), reward := (n : ℚ),
    next_state := [], done := false }

/-- A tiny concrete replay store of capacity 2 used in witnesses. -/
def rbTwo : ReplayBuffer :=
  { action_size := 4, buffer_size := 2, batch_size := 1, memory := [] }

/-- Witness for C2: inserting 3 records into a store of capacity 2 keeps the
last 2 of them, in order. -/
theorem replay_capacity_fifo_witness :
    (rbTwo.addAll [expW 1, expW 2, expW 3]).size ≤ rbTwo.buffer_size
    ∧ (rbTwo.addAll [expW 1, expW 2, expW 3]).memory
        = [expW 1, expW 2, expW 3].drop ([expW 1, expW 2, expW 3].length - rbTwo.buffer_size)
    ∧ (rbTwo.buffer_size ≤ [expW 1, expW 2, expW 3].length
        → (rbTwo.addAll [expW 1, expW 2, expW 3]).size = rbTwo.buffer_size) :=
  replay_capacity_fifo rbTwo [expW 1, expW 2, expW 3] rfl

/-- A concrete estimator used in witnesses: two actions, output `[5, 1]` on
every input, one parameter `1`. -/
def qnetW : QNetwork :=
  { action_size := 2, params := [(1 : ℚ)], mode := NetMode.train,
    forwardQ := fun _ _ => some [5, 1],
    forward_len := by
      intro m s q h
      simp only [Option.some.injEq] at h
      subst h
      rfl }

/-- A concrete replay store used by the witness agent: capacity 100, batch
size `BATCH_SIZE`, empty. -/
def rbW : ReplayBuffer :=
  { action_size := 2, buffer_size := 100, batch_size := BATCH_SIZE, memory := [] }

/-- A concrete agent used in witnesses. -/
def agentW : Agent :=
  { state_size := 8, action_size := 2, qnetwork_local := qnetW,
    qnetwork_target := qnetW, optimState := [], memory := rbW, t_step := 0 }

/-- Concrete transitions used by the C3 witness. -/
def esW : List Experience := [expW 1, expW 2, expW 3, expW 4, expW 5]

/-- C3: over any sequence of `Agent.step` calls, the learning update is
invoked on call `k` (0-indexed) iff the step counter incremented modulo
`UPDATE_EVERY` equals 0 on that call and the replay store's size after that
call's insertion is strictly greater than `BATCH_SIZE`; hence two learning
triggers are at least `UPDATE_EVERY` calls apart, and none occurs while the
size is at most `BATCH_SIZE`. -/
theorem step_learning_cadence (ag : Agent) (g : List ℚ → List ℚ)
    (es : List Experience) (j k : ℕ) (hjk : j < k) (hk : k < es.length) :
    ((Agent.runSteps g ag es).getD k false = true
      ↔ ((ag.t_step + k + 1) % UPDATE_EVERY = 0
          ∧ BATCH_SIZE
              < min (ag.memory.memory.length + (k + 1)) ag.memory.buffer_size))
    ∧ ((Agent.runSteps g ag es).getD j false = true
        → (Agent.runSteps g ag es).getD k false = true
        → j + UPDATE_EVERY ≤ k) := by
  refine ⟨runSteps_trigger g es ag k hk, fun hj hk2 => ?_⟩
  have h1 := (runSteps_trigger g es ag j (by omega)).mp hj
  have h2 := (runSteps_trigger g es ag k hk).mp hk2
  simp only [UPDATE_EVERY] at h1 h2 ⊢
  omega

/-- Witness for C3 on a concrete 5-step run with `j = 0`, `k = 4`. -/
theorem step_learning_cadence_witness :
    ((Agent.runSteps id agentW esW).getD 4 false = true
      ↔ ((agentW.t_step + 4 + 1) % UPDATE_EVERY = 0
          ∧ BATCH_SIZE
              < min (agentW.memory.memory.length + (4 + 1)) agentW.memory.buffer_size))
    ∧ ((Agent.runSteps id agentW esW).getD 0 false = true
        → (Agent.runSteps id agentW esW).getD 4 false = true
        → 0 + UPDATE_EVERY ≤ 4) :=
  step_learning_cadence agentW id esW 0 4 (by decide) (by decide)

/-- C4: the soft target update sets every parameter pair at matching
positions to `p_target := TAU * p_local + (1 - TAU) * p_target` with
`TAU = 1/1000`, reading the post-gradient-step online parameters (it runs
immediately after the gradient step inside `learn`); an `Agent.step` call
that does not trigger learning leaves the target network untouched, and one
that does applies exactly one soft update. -/
theorem soft_update_per_trigger (ag : Agent) (g : List ℚ → List ℚ) (gamma : ℚ)
    (s : List ℚ) (a : ℤ) (r : ℚ) (ns : List ℚ) (d : Bool) (i : ℕ)
    (hi : i < ag.qnetwork_target.params.length)
    (hi' : i < (g ag.qnetwork_local.params).length) :
    (ag.learn g gamma).qnetwork_target.params.getD i 0
        = TAU * (g ag.qnetwork_local.params).getD i 0
          + (1 - TAU) * ag.qnetwork_target.params.getD i 0
    ∧ ((ag.step s a r ns d g).2 = false
        → (ag.step s a r ns d g).1.qnetwork_target = ag.qnetwork_target)
    ∧ ((ag.step s a r ns d g).2 = true
        → (ag.step s a r ns d g).1.qnetwork_target.params
            = soft_update (g ag.qnetwork_local.params) ag.qnetwork_target.params TAU) := by
  refine ⟨?_, fun hf => ?_, fun ht => ?_⟩
  · show (soft_update (g ag.qnetwork_local.params) ag.qnetwork_target.params TAU).getD i 0 = _
    exact soft_update_getD _ _ _ _ hi hi'
  · rw [step_fst_qnetwork_target, if_neg]
    intro hc
    have := (step_snd_iff ag s a r ns d g).mpr hc
    rw [this] at hf
    cases hf
  · have hc := (step_snd_iff ag s a r ns d g).mp ht
    rw [step_fst_qnetwork_target, if_pos hc]

/-- Witness for C4 at the concrete agent `agentW`, `g = id`, `i = 0`. -/
theorem soft_update_per_trigger_witness :
    (agentW.learn id GAMMA).qnetwork_target.params.getD 0 0
        = TAU * (id agentW.qnetwork_local.params).getD 0 0
          + (1 - TAU) * agentW.qnetwork_target.params.getD 0 0
    ∧ ((agentW.step [0] 0 0 [0] false id).2 = false
        → (agentW.step [0] 0 0 [0] false id).1.qnetwork_target = agentW.qnetwork_target)
    ∧ ((agentW.step [0] 0 0 [0] false id).2 = true
        → (agentW.step [0] 0 0 [0] false id).1.qnetwork_target.params
            = soft_update (id agentW.qnetwork_local.params)
                agentW.qnetwork_target.params TAU) :=
  soft_update_per_trigger agentW id GAMMA [0] 0 0 [0] false 0 (by decide) (by decide)

/-- C6: when the store's current size is strictly less than the batch size, a
direct call to `sample` signals an error (`random.sample` raises `ValueError`,
modelled by `none`); it never returns a short or padded batch. -/
theorem sample_insufficient_fails (rb : ReplayBuffer) (idx : List ℕ)
    (h : rb.memory.length < rb.batch_size) :
    rb.sample idx = none := by
  unfold ReplayBuffer.sample
  rw [if_neg]
  omega

/-- C5: when the current size is at least the batch size `B`, sampling
succeeds and returns five parallel arrays of length exactly `B`; for every
index `k < B` the five entries at `k` are the fields of the single record
`memory[idx[k]]` (an element of the current contents; `idx` is the RNG's
choice of `B` distinct in-bounds positions, i.e. a draw without
replacement), and the store after the call is unchanged. -/
theorem sample_parallel_arrays (rb : ReplayBuffer) (idx : List ℕ) (k : ℕ)
    (batch : SampleBatch) (rb' : ReplayBuffer)
    (hnd : idx.Nodup)
    (hbound : ∀ i ∈ idx, i < rb.memory.length)
    (hlen : idx.length = rb.batch_size)
    (hk : k < rb.batch_size)
    (hs : rb.sample idx = some (batch, rb')) :
    rb' = rb
    ∧ batch.states.length = rb.batch_size
    ∧ batch.actions.length = rb.batch_size
    ∧ batch.rewards.length = rb.batch_size
    ∧ batch.next_states.length = rb.batch_size
    ∧ batch.dones.length = rb.batch_size
    ∧ rb.memory.getD (idx.getD k 0) default ∈ rb.memory
    ∧ batch.states.getD k [] = (rb.memory.getD (idx.getD k 0) default).state
    ∧ batch.actions.getD k 0 = (rb.memory.getD (idx.getD k 0) default).action
    ∧ batch.rewards.getD k 0 = (rb.memory.getD (idx.getD k 0) default).reward
    ∧ batch.next_states.getD k [] = (rb.memory.getD (idx.getD k 0) default).next_state
    ∧ batch.dones.getD k 0
        = (if (rb.memory.getD (idx.getD k 0) default).done then (1 : ℚ) else 0) := by
  unfold ReplayBuffer.sample at hs
  split at hs
  case isFalse => cases hs
  case isTrue hguard =>
  simp only [Option.some.injEq, Prod.mk.injEq] at hs
  obtain ⟨hb, hrb⟩ := hs
  subst hb
  have hkidx : k < idx.length := by omega
  have hgetDidx : idx.getD k 0 = idx[k] := List.getD_eq_getElem idx 0 hkidx
  have hmem : idx[k] < rb.memory.length := hbound _ (List.getElem_mem hkidx)
  refine ⟨hrb.symm, by simp [hlen], by simp [hlen], by simp [hlen], by simp [hlen],
    by simp [hlen], ?_, ?_, ?_, ?_, ?_, ?_⟩
  · rw [hgetDidx, List.getD_eq_getElem _ _ hmem]
    exact List.getElem_mem hmem
  all_goals
    rw [List.getD_eq_getElem _ _ (by simp; omega), hgetDidx]
    simp

/-- The concrete batch produced by the C5 witness call. -/
def batchS : SampleBatch :=
  { states := [[(2 : ℚ)]], actions := [2], rewards := [2],
    next_states := [[]], dones := [0] }

/-- A concrete two-record store with batch size 1 for the C5 witness. -/
def rbS : ReplayBuffer :=
  { action_size := 2, buffer_size := 10, batch_size := 1,
    memory := [expW 1, expW 2] }

/-- Witness for C5: sampling index 1 from a two-record store. -/
theorem sample_parallel_arrays_witness :
    rbS = rbS
    ∧ batchS.states.length = rbS.batch_size
    ∧ batchS.actions.length = rbS.batch_size
    ∧ batchS.rewards.length = rbS.batch_size
    ∧ batchS.next_states.length = rbS.batch_size
    ∧ batchS.dones.length = rbS.batch_size
    ∧ rbS.memory.getD (([1] : List ℕ).getD 0 0) default ∈ rbS.memory
    ∧ batchS.states.getD 0 [] = (rbS.memory.getD (([1] : List ℕ).getD 0 0) default).state
    ∧ batchS.actions.getD 0 0 = (rbS.memory.getD (([1] : List ℕ).getD 0 0) default).action
    ∧ batchS.rewards.getD 0 0 = (rbS.memory.getD (([1] : List ℕ).getD 0 0) default).reward
    ∧ batchS.next_states.getD 0 []
        = (rbS.memory.getD (([1] : List ℕ).getD 0 0) default).next_state
    ∧ batchS.dones.getD 0 0
        = (if (rbS.memory.getD (([1] : List ℕ).getD 0 0) default).done
            then (1 : ℚ) else 0) :=
  sample_parallel_arrays rbS [1] 0 batchS rbS (by decide) (by decide) (by decide)
    (by decide) (by decide)

/-- Witness for C6 at a concrete empty store with batch size 1. -/
theorem sample_insufficient_fails_witness :
    rbTwo.sample [] = none :=
  sample_insufficient_fails rbTwo [] (by decide)

/-- C7 counterexample: `random.random()` draws from the half-open interval
`[0.0, 1.0)`, so the draw `0.0` is admissible; with `epsilon = 0.0` the
comparison `random.random() > eps` is then `0.0 > 0.0`, which is false, so
the uniform-random branch is taken.  Here the estimator output is `[5, 1]`
(argmax index `0`) and the uniform draw is index `1`: `act` returns `1`,
not the argmax — so "always returns the argmax" fails at this input. -/
theorem act_eps0_random_branch_ce :
    (agentW.act [0] 0 1 0).1 = some 1
    ∧ argmaxIdx [(5 : ℚ), 1] = 0
    ∧ (agentW.act [0] 0 1 0).1 ≠ some (argmaxIdx [(5 : ℚ), 1]) := by
  decide

/-- C7 (amended): whenever the draw `r` of `random.random()` is strictly
positive, `act` with `epsilon = 0.0` returns the index of the first
occurrence of the maximum entry of the online estimator's eval-mode output
(every earlier entry is strictly below the maximum); when the draw is exactly
`0.0` the uniform-random branch is taken instead (see the counterexample).
With `epsilon = 1.0`, every draw `r < 1` takes the uniform-random branch and
`act` returns the uniformly drawn index `pick ∈ [0, action_size)`. -/
theorem act_eps_boundary (ag : Agent) (state : List ℚ) (r : ℚ) (pick : ℕ)
    (av : List ℚ)
    (hfw : ag.qnetwork_local.forwardQ NetMode.evalM state = some av)
    (hr : 0 < r) (hr1 : r < 1) (hpick : pick < ag.action_size) :
    (ag.act state r pick 0).1 = some (argmaxIdx av)
    ∧ av.getD (argmaxIdx av) 0 = rowMax av
    ∧ (av.take (argmaxIdx av)).all (fun y => decide (y < rowMax av)) = true
    ∧ (ag.act state r pick 1).1 = some pick
    ∧ pick < ag.action_size := by
  refine ⟨?_, getD_argmaxIdx av, take_argmaxIdx_lt av, ?_, hpick⟩
  · rw [act_eval ag state r pick 0 av hfw]
    simp [hr]
  · rw [act_eval ag state r pick 1 av hfw]
    simp only [Prod.fst]
    rw [if_neg (by exact not_lt.mpr (le_of_lt hr1))]

/-- Witness for C7 (amended) at the concrete agent `agentW`, draw `1/2`. -/
theorem act_eps_boundary_witness :
    (agentW.act [0] (1/2) 1 0).1 = some (argmaxIdx [(5 : ℚ), 1])
    ∧ ([(5 : ℚ), 1]).getD (argmaxIdx [(5 : ℚ), 1]) 0 = rowMax [(5 : ℚ), 1]
    ∧ (([(5 : ℚ), 1]).take (argmaxIdx [(5 : ℚ), 1])).all
        (fun y => decide (y < rowMax [(5 : ℚ), 1])) = true
    ∧ (agentW.act [0] (1/2) 1 1).1 = some 1
    ∧ 1 < agentW.action_size :=
  act_eps_boundary agentW [0] (1/2) 1 [5, 1] (by decide) (by norm_num) (by norm_num)
    (by decide)

/-- A concrete estimator whose forward evaluation raises (returns `none`)
unless the state has length 8, as a real network does on a shape mismatch. -/
def qnetFail : QNetwork :=
  { action_size := 2, params := [(3 : ℚ)], mode := NetMode.train,
    forwardQ := fun _ s => if s.length = 8 then some [1, 2] else none,
    forward_len := by
      intro m s q h
      dsimp only at h
      split at h
      · simp only [Option.some.injEq] at h
        subst h
        rfl
      · cases h }

/-- The witness agent with the failing estimator as its online network. -/
def agentFail : Agent :=
  { agentW with qnetwork_local := qnetFail }

/-- C8 counterexample: `Agent.act` has no try/finally around the forward
evaluation, so when the forward pass raises (here: a state of length 1
instead of 8), the exception propagates after `self.qnetwork_local.eval()`
but before `self.qnetwork_local.train()`: the online network starts in
training mode, the call errors, and afterwards the online network is still
in inference mode — training mode is NOT restored when an error occurs,
refuting the "regardless of outcome (including when an error occurs)"
part of the claim.  Parameters and optimizer state are still untouched. -/
theorem act_error_mode_not_restored_ce :
    agentFail.qnetwork_local.mode = NetMode.train
    ∧ (agentFail.act [0] (1/2) 0 0).1 = none
    ∧ (agentFail.act [0] (1/2) 0 0).2.qnetwork_local.mode = NetMode.evalM
    ∧ (agentFail.act [0] (1/2) 0 0).2.qnetwork_local.params
        = agentFail.qnetwork_local.params
    ∧ (agentFail.act [0] (1/2) 0 0).2.qnetwork_target.params
        = agentFail.qnetwork_target.params
    ∧ (agentFail.act [0] (1/2) 0 0).2.optimState = agentFail.optimState := by
  decide

/-- C8 (amended): on normal completion of the forward evaluation, `act`
mutates neither the optimizer state, nor the parameters of either estimator,
nor the replay memory; the online estimator is evaluated in inference mode
(the output is computed from `forwardQ NetMode.evalM`), and training mode is
restored afterward.  When the forward evaluation raises, however, the error
propagates with the online estimator left in inference mode (see the
counterexample): training mode is restored only on the non-error path. -/
theorem act_frame_effect (ag : Agent) (state : List ℚ) (r : ℚ) (pick : ℕ)
    (eps : ℚ) (av : List ℚ)
    (hfw : ag.qnetwork_local.forwardQ NetMode.evalM state = some av) :
    (ag.act state r pick eps).2.qnetwork_local.mode = NetMode.train
    ∧ (ag.act state r pick eps).2.qnetwork_local.params = ag.qnetwork_local.params
    ∧ (ag.act state r pick eps).2.qnetwork_target = ag.qnetwork_target
    ∧ (ag.act state r pick eps).2.optimState = ag.optimState
    ∧ (ag.act state r pick eps).2.memory = ag.memory
    ∧ (ag.act state r pick eps).1
        = some (if r > eps then argmaxIdx av else pick) := by
  rw [act_eval ag state r pick eps av hfw]
  exact ⟨rfl, rfl, rfl, rfl, rfl, rfl⟩

/-- Witness for C8 (amended) at the concrete agent `agentW`. -/
theorem act_frame_effect_witness :
    (agentW.act [0] (1/2) 1 0).2.qnetwork_local.mode = NetMode.train
    ∧ (agentW.act [0] (1/2) 1 0).2.qnetwork_local.params
        = agentW.qnetwork_local.params
    ∧ (agentW.act [0] (1/2) 1 0).2.qnetwork_target = agentW.qnetwork_target
    ∧ (agentW.act [0] (1/2) 1 0).2.optimState = agentW.optimState
    ∧ (agentW.act [0] (1/2) 1 0).2.memory = agentW.memory
    ∧ (agentW.act [0] (1/2) 1 0).1
        = some (if (1/2 : ℚ) > 0 then argmaxIdx [(5 : ℚ), 1] else 1) :=
  act_frame_effect agentW [0] (1/2) 1 0 [5, 1] (by decide)

/-- The malformed record used in the C9 counterexample: state of length 1
(instead of `state_size = 8`) and action index 99 (outside `[0, 2)`). -/
def badExp : Experience :=
  { state := [(1 : ℚ)], action := 99, reward := 0,
    next_state := [(2 : ℚ), 3], done := false }

/-- C9 counterexample: `ReplayBuffer.add` and `Agent.step` perform no
validation at all — a record whose state has the wrong length and whose
action index is outside `[0, action_size)` is accepted and stored without
any error being signalled at the point of the call (the call completes
normally and the malformed record sits in memory), refuting "surfaced
immediately as an error at the point of the offending call". -/
theorem add_accepts_malformed_ce :
    badExp.state.length ≠ agentW.state_size
    ∧ ¬(0 ≤ badExp.action ∧ badExp.action < (agentW.action_size : ℤ))
    ∧ (agentW.memory.add badExp).memory = [badExp]
    ∧ (agentW.step badExp.state badExp.action badExp.reward badExp.next_state
        badExp.done id).2 = false
    ∧ (agentW.step badExp.state badExp.action badExp.reward badExp.next_state
        badExp.done id).1.memory.memory = [badExp] := by
  decide

/-- C9 (amended): `add` and `step` accept any input without validation: a
state of the wrong length or an out-of-range action index is silently stored
(the record is appended to memory and the call returns normally); a
shape/index error can only surface later, when the stored record
participates in a numeric operation (`vstack` in `sample`, `gather`/forward
in `learn`), not at the offending `add`/`step` call. -/
theorem step_no_validation (ag : Agent) (s : List ℚ) (a : ℤ) (r : ℚ)
    (ns : List ℚ) (d : Bool) (g : List ℚ → List ℚ)
    (hbad : s.length ≠ ag.state_size ∨ a < 0 ∨ (ag.action_size : ℤ) ≤ a)
    (hroom : ag.memory.memory.length < ag.memory.buffer_size) :
    (ag.memory.add
        { state := s, action := a, reward := r, next_state := ns, done := d }).memory
      = ag.memory.memory
          ++ [{ state := s, action := a, reward := r, next_state := ns, done := d }]
    ∧ ({ state := s, action := a, reward := r, next_state := ns, done := d } :
        Experience) ∈ (ag.step s a r ns d g).1.memory.memory := by
  have h1 : (ag.memory.add
      { state := s, action := a, reward := r, next_state := ns, done := d }).memory
      = ag.memory.memory
          ++ [{ state := s, action := a, reward := r, next_state := ns, done := d }] := by
    unfold ReplayBuffer.add keepLast
    rw [List.length_append]
    rw [Nat.sub_eq_zero_of_le (by simp; omega), List.drop_zero]
  refine ⟨h1, ?_⟩
  rw [step_fst_memory, h1]
  exact List.mem_append_right _ (List.mem_singleton.mpr rfl)

/-- Witness for C9 (amended): the malformed record `badExp` is stored by
`step` without error. -/
theorem step_no_validation_witness :
    (agentW.memory.add
        { state := [(1 : ℚ)], action := 99, reward := 0,
          next_state := [(2 : ℚ), 3], done := false }).memory
      = agentW.memory.memory
          ++ [{ state := [(1 : ℚ)], action := 99, reward := 0,
                next_state := [(2 : ℚ), 3], done := false }]
    ∧ ({ state := [(1 : ℚ)], action := 99, reward := 0,
          next_state := [(2 : ℚ), 3], done := false } : Experience)
        ∈ (agentW.step [(1 : ℚ)] 99 0 [(2 : ℚ), 3] false id).1.memory.memory :=
  step_no_validation agentW [1] 99 0 [2, 3] false id (Or.inl (by decide)) (by decide)

/-- C10: for every state, draw and epsilon, `Agent.act` returns an index `n`
with `0 ≤ n < action_size`: the random branch returns the uniform draw from
`[0, action_size)` and the greedy branch returns the argmax index over the
online estimator's output vector, whose length is `action_size`. -/
theorem act_index_in_range (ag : Agent) (state : List ℚ) (r : ℚ) (pick : ℕ)
    (eps : ℚ) (av : List ℚ)
    (hfw : ag.qnetwork_local.forwardQ NetMode.evalM state = some av)
    (hnet : ag.qnetwork_local.action_size = ag.action_size)
    (hpick : pick < ag.action_size) (hpos : 0 < ag.action_size) :
    (ag.act state r pick eps).1 = some (if r > eps then argmaxIdx av else pick)
    ∧ (if r > eps then argmaxIdx av else pick) < ag.action_size := by
  have hlen : av.length = ag.action_size := by
    rw [← hnet]
    exact ag.qnetwork_local.forward_len _ _ _ hfw
  refine ⟨?_, ?_⟩
  · rw [act_eval ag state r pick eps av hfw]
  · split
    · rw [← hlen]
      exact argmaxIdx_lt_length av (by intro hnil; rw [hnil] at hlen; simp at hlen; omega)
    · exact hpick

/-- Witness for C10 at the concrete agent `agentW`, draw `1/2`, eps `1/4`. -/
theorem act_index_in_range_witness :
    (agentW.act [0] (1/2) 1 (1/4)).1
        = some (if (1/2 : ℚ) > (1/4 : ℚ) then argmaxIdx [(5 : ℚ), 1] else 1)
    ∧ (if (1/2 : ℚ) > (1/4 : ℚ) then argmaxIdx [(5 : ℚ), 1] else 1)
        < agentW.action_size :=
  act_index_in_range agentW [0] (1/2) 1 (1/4) [5, 1] (by decide) (by decide)
    (by decide) (by decide)

end DQN
